import Mathlib

/-!
# Verification of the ortfodb description-parsing and build pipeline

This file gives a shallow embedding, in Lean 4, of the core functions of the
ortfodb portfolio-database builder (Go sources: `ui.go`, `build.go`, and the
media-analysis file), and proves or refutes the frozen specification claims
about them.

Conventions of the embedding:
* Go strings are Lean `String`s; where line- or character-level reasoning is
  needed, we work on `List Char` / `List String` cores and join at the end,
  which produces the same strings as the Go `+=`-accumulation.
* Go maps whose iteration order matters are embedded as association lists,
  iterated in list order.
* Filesystem and process effects are embedded as explicit state passing
  (`BuildFS`) or as environment parameters (`BuildEnv`, `MediaEnv`); external
  collaborators that the specification scopes out (YAML/JSON codecs, the raw
  media prober, absolute-path resolution) are environment parameters.
-/

namespace Ortfodb

/-! ## Line splitting (Go `strings.Split(s, "\n")`) -/

/-- Splits a character list at every newline, like Go `strings.Split(s, "\n")`:
the result always has one more element than the number of newlines, and an
empty input yields `[[]]`. -/
def splitNl : List Char → List (List Char)
  | [] => [[]]
  | c :: rest =>
    match splitNl rest with
    | [] => if c = '\n' then [[], []] else [[c]]
    | h :: t => if c = '\n' then [] :: h :: t else (c :: h) :: t

/-- String-level wrapper around `splitNl`. -/
def splitNlStr (s : String) : List String :=
  (splitNl s.data).map fun cs => String.mk cs

/-- Joins lines the way the Go code accumulates them with `s += line + "\n"`:
every line gets a trailing newline. -/
def joinNl (lines : List String) : String :=
  String.join (lines.map fun l => l ++ "\n")

/-! ## Association-list helpers (Go `map` embeddings) -/

/-- First-match lookup in an association list. -/
def alookup {α : Type} : List (String × α) → String → Option α
  | [], _ => none
  | (k, v) :: rest, key => if k = key then some v else alookup rest key

/-- Go `m[k] = v`: replace the binding if the key is present, otherwise add it. -/
def aset {α : Type} : List (String × α) → String → α → List (String × α)
  | [], key, v => [(key, v)]
  | (k, w) :: rest, key, v =>
    if k = key then (k, v) :: rest else (k, w) :: aset rest key v

/-! ## The language-marker pattern (`PatternLanguageMarker = ^::\s+(.+)$`)

`SplitOnLanguageMarkers` matches each line (which contains no newline) against
the Go regexp `^::\s+(.+)$` and takes the first capture group.  For a
newline-free input the RE2 leftmost-first semantics are: the line must start
with `::`, followed by at least one whitespace character and at least one
further character; the greedy `\s+` eats the maximal whitespace run that still
leaves at least one character for `(.+)`. -/

/-- RE2 `\s`: `[\t\n\f\r ]`. -/
def isGoWhitespace (c : Char) : Bool :=
  c = '\t' || c = '\n' || c = '\x0c' || c = '\r' || c = ' '

/-- The capture group of `^::\s+(.+)$` on a single (newline-free) line, or
`none` when the line does not match. -/
def languageMarkerCapture (line : String) : Option String :=
  if [':', ':'].isPrefixOf line.data then
    let tail := line.data.drop 2
    let w := (tail.takeWhile isGoWhitespace).length
    if w = 0 then none
    else if w = tail.length then
      -- the whole tail is whitespace: `\s+` backtracks to leave one character
      if 2 ≤ tail.length then some (String.mk (tail.drop (tail.length - 1))) else none
    else some (String.mk (tail.drop w))
  else none

/-- `true` iff the line matches the language-marker pattern
(Go `pattern.MatchString(line)`). -/
def isLanguageMarkerLine (line : String) : Bool :=
  (languageMarkerCapture line).isSome

/-! ## `SplitOnLanguageMarkers` (ui.go)

```go
func SplitOnLanguageMarkers(markdownRaw string) (string, map[string]string) {
    lines := strings.Split(markdownRaw, "\n")
    pattern := regexp.MustCompile(PatternLanguageMarker)
    currentLanguage := ""
    before := ""
    markdownRawPerLanguage := map[string]string{}
    for _, line := range lines {
        if pattern.MatchString(line) {
            currentLanguage = pattern.FindStringSubmatch(line)[1]
            markdownRawPerLanguage[currentLanguage] = ""
        }
        if currentLanguage == "" {
            before += line + "\n"
        } else {
            markdownRawPerLanguage[currentLanguage] += line + "\n"
        }
    }
    return before, markdownRawPerLanguage
}
```

Note there is no `continue` after a marker match: the marker line itself falls
through to the accumulation step and is appended to the (just-reset) bucket of
the language it names.  We accumulate buckets as line lists and join with
`joinNl` at the end, which yields exactly the Go `+= line + "\n"` strings. -/

structure SplitState where
  currentLanguage : String
  before : List String
  buckets : List (String × List String)
deriving DecidableEq

/-- Go `m[k] += line + "\n"` at line granularity: append to the existing
bucket, creating it from the zero value when absent. -/
def bucketAppend (buckets : List (String × List String)) (key : String)
    (line : String) : List (String × List String) :=
  match alookup buckets key with
  | some lines => aset buckets key (lines ++ [line])
  | none => aset buckets key [line]

/-- One iteration of the `SplitOnLanguageMarkers` loop. -/
def splitStep (st : SplitState) (line : String) : SplitState :=
  let st1 :=
    match languageMarkerCapture line with
    | some lang =>
      { st with currentLanguage := lang, buckets := aset st.buckets lang [] }
    | none => st
  if st1.currentLanguage = "" then
    { st1 with before := st1.before ++ [line] }
  else
    { st1 with buckets := bucketAppend st1.buckets st1.currentLanguage line }

/-- The loop of `SplitOnLanguageMarkers` over a list of lines. -/
def splitCore (lines : List String) : SplitState :=
  lines.foldl splitStep { currentLanguage := "", before := [], buckets := [] }

/-- `SplitOnLanguageMarkers` (ui.go): returns the text before any language
marker and a map from language code to that language's accumulated text. -/
def SplitOnLanguageMarkers (markdownRaw : String) :
    String × List (String × String) :=
  let st := splitCore (splitNlStr markdownRaw)
  (joinNl st.before, st.buckets.map fun kv => (kv.1, joinNl kv.2))

/-! ### Lemmas about the language sectioner -/

lemma length_takeWhile_le (p : Char → Bool) :
    ∀ l : List Char, (l.takeWhile p).length ≤ l.length := by
  intro l
  induction l with
  | nil => simp
  | cons c rest ih =>
    by_cases hc : p c
    · simp [List.takeWhile_cons, hc]; omega
    · simp [List.takeWhile_cons, hc]

/-- The capture group of a matching marker line is never empty: `(.+)` requires
at least one character. -/
lemma languageMarkerCapture_ne_empty {line s : String}
    (h : languageMarkerCapture line = some s) : s ≠ "" := by
  intro hs
  subst hs
  unfold languageMarkerCapture at h
  split at h
  · dsimp only at h
    split at h
    · exact absurd h (by simp)
    · split at h
      · split at h
        · rename_i hw hlen h2
          have hdata := congrArg String.data (Option.some.inj h)
          have hlength := congrArg List.length hdata
          simp only [List.length_drop, List.length_nil] at hlength h2
          omega
        · exact absurd h (by simp)
      · rename_i hw hlen
        have hdata := congrArg String.data (Option.some.inj h)
        have hlength := congrArg List.length hdata
        have hle : ((line.data.drop 2).takeWhile isGoWhitespace).length ≤
            (line.data.drop 2).length := length_takeWhile_le _ _
        simp only [List.length_drop, List.length_nil] at hlength hlen hle
        omega
  · exact absurd h (by simp)

/-- A line that the splitter puts into the preamble never matches the
language-marker pattern. -/
lemma splitStep_before_sound (st : SplitState) (line : String)
    (hinv : ∀ l ∈ st.before, languageMarkerCapture l = none) :
    ∀ l ∈ (splitStep st line).before, languageMarkerCapture l = none := by
  unfold splitStep
  cases hcap : languageMarkerCapture line with
  | none =>
    simp only [hcap]
    split
    · intro l hl
      rcases List.mem_append.mp hl with h | h
      · exact hinv l h
      · simp only [List.mem_singleton] at h; rw [h]; exact hcap
    · exact hinv
  | some lang =>
    simp only [hcap]
    have hne : lang ≠ "" := languageMarkerCapture_ne_empty hcap
    split
    · rename_i heq
      exact absurd heq hne
    · exact hinv

/-- No line of the preamble accumulator ever matches the marker pattern. -/
lemma splitCore_before_sound (lines : List String) :
    ∀ l ∈ (splitCore lines).before, languageMarkerCapture l = none := by
  unfold splitCore
  generalize hst : ({ currentLanguage := "", before := [], buckets := [] } : SplitState) = st
  have hinv : ∀ l ∈ st.before, languageMarkerCapture l = none := by
    rw [← hst]; intro l hl; exact absurd hl (by simp)
  clear hst
  induction lines generalizing st with
  | nil => exact hinv
  | cons line rest ih => exact ih _ (splitStep_before_sound st line hinv)

/-- Looking up the key just set yields the value just set. -/
lemma alookup_aset_self {α : Type} (l : List (String × α)) (k : String) (v : α) :
    alookup (aset l k v) k = some v := by
  induction l with
  | nil => simp [aset, alookup]
  | cons kv rest ih =>
    by_cases h : kv.1 = k
    · simp [aset, alookup, h]
    · simp [aset, alookup, h, ih]

/-- Processing non-marker lines while a language is current appends each line
to that language's bucket, preserves the current language, and touches the
tracked bucket in no other way. -/
lemma splitCore_accumulate (lines : List String) (st : SplitState)
    (lang : String) (ls : List String) (hlang : lang ≠ "")
    (hcur : st.currentLanguage = lang)
    (hbucket : alookup st.buckets lang = some ls)
    (hnomark : ∀ l ∈ lines, languageMarkerCapture l = none) :
    (lines.foldl splitStep st).currentLanguage = lang ∧
      alookup (lines.foldl splitStep st).buckets lang = some (ls ++ lines) := by
  induction lines generalizing st ls with
  | nil => simpa using ⟨hcur, hbucket⟩
  | cons line rest ih =>
    have hline : languageMarkerCapture line = none := hnomark line (by simp)
    have hrest : ∀ l ∈ rest, languageMarkerCapture l = none := by
      intro l hl; exact hnomark l (by simp [hl])
    have hstep : splitStep st line =
        { st with buckets := bucketAppend st.buckets lang line } := by
      unfold splitStep
      simp only [hline, hcur]
      split
      · rename_i h; exact absurd h hlang
      · rfl
    have hbucket2 : alookup (bucketAppend st.buckets lang line) lang =
        some (ls ++ [line]) := by
      unfold bucketAppend
      rw [hbucket]
      exact alookup_aset_self _ _ _
    rw [List.foldl_cons, hstep]
    have := ih { st with buckets := bucketAppend st.buckets lang line }
      (ls ++ [line]) hcur hbucket2 hrest
    simpa using this

/-- A second marker for the same language re-initializes the bucket: whatever
state the splitter is in, processing a marker line for `lang` leaves exactly
that marker line in `lang`'s bucket. -/
lemma splitStep_marker_resets (st : SplitState) (line lang : String)
    (hcap : languageMarkerCapture line = some lang) (hlang : lang ≠ "") :
    (splitStep st line).currentLanguage = lang ∧
      alookup (splitStep st line).buckets lang = some [line] := by
  unfold splitStep
  simp only [hcap]
  split
  · rename_i h; exact absurd h hlang
  · refine ⟨rfl, ?_⟩
    unfold bucketAppend
    rw [alookup_aset_self]
    exact alookup_aset_self _ _ _

/-! ### Claim C3 -/

/-- C3 counterexample: on the document with markers `:: en` and `:: fr` and no
preamble, `SplitOnLanguageMarkers` does produce two buckets — but each bucket
INCLUDES its own marker line (there is no `continue` after the marker match,
so the marker line falls through to the accumulation step), refuting the claim
that a marker line appears in no language bucket. -/
theorem C3_counterexample :
    SplitOnLanguageMarkers ":: en\nhello\n:: fr\nbonjour" =
      ("", [("en", ":: en\nhello\n"), ("fr", ":: fr\nbonjour\n")]) ∧
    ":: en" ∈ splitNlStr ":: en\nhello\n" ∧
    ":: fr" ∈ splitNlStr ":: fr\nbonjour\n" := by
  refine ⟨rfl, ?_, ?_⟩ <;> decide

/-- C3 amended: a marker line never appears in the preamble, but it is
consumed INTO the bucket of the language it names (each bucket begins with its
own marker line); the two-marker document still yields exactly two buckets. -/
theorem C3_amended :
    (∀ doc : String, ∀ l ∈ (splitCore (splitNlStr doc)).before,
        languageMarkerCapture l = none) ∧
    SplitOnLanguageMarkers ":: en\nhello\n:: fr\nbonjour" =
      ("", [("en", ":: en\nhello\n"), ("fr", ":: fr\nbonjour\n")]) :=
  ⟨fun doc => splitCore_before_sound (splitNlStr doc), rfl⟩

/-- C3 witness: the amended theorem applied to a concrete document whose
preamble is the single line `x`. -/
theorem C3_amended_witness :
    "x" ∈ (splitCore (splitNlStr "x\n:: en\ny")).before ∧
      languageMarkerCapture "x" = none :=
  ⟨by decide, C3_amended.1 "x\n:: en\ny" "x" (by decide)⟩

/-! ### Claim C10 -/

/-- C10 counterexample: with the same language marked twice, the surviving
bucket is NOT just the lines after the last marker — the marker line itself
also survives at the head of the bucket. -/
theorem C10_counterexample :
    alookup (SplitOnLanguageMarkers ":: en\na\n:: en\nb").2 "en" =
        some ":: en\nb\n" ∧
      some (":: en\nb\n" : String) ≠ some ("b\n" : String) :=
  ⟨rfl, by decide⟩

/-- C10 amended: a second marker for the same language re-initializes that
language's bucket, discarding everything accumulated before it (whatever the
intervening lines were); the bucket then holds the second marker line followed
by the lines after it. -/
theorem C10_amended (b c : List String)
    (hc : ∀ l ∈ c, languageMarkerCapture l = none) :
    alookup (splitCore ((([":: en"] ++ b) ++ [":: en"]) ++ c)).buckets "en" =
      some (":: en" :: c) := by
  unfold splitCore
  rw [List.foldl_append, List.foldl_append, List.foldl_cons, List.foldl_nil]
  have hreset := splitStep_marker_resets
    (List.foldl splitStep { currentLanguage := "", before := [], buckets := [] }
      ([":: en"] ++ b)) ":: en" "en" (by decide) (by decide)
  have hacc := splitCore_accumulate c _ "en" [":: en"] (by decide)
    hreset.1 hreset.2 hc
  simpa using hacc.2

/-- C10 witness: the amended theorem at the concrete document
`:: en / a / :: en / b`. -/
theorem C10_amended_witness :
    alookup (splitCore ((([":: en"] ++ ["a"]) ++ [":: en"]) ++ ["b"])).buckets
        "en" = some [":: en", "b"] :=
  C10_amended ["a"] ["b"] (by decide)

/-! ## Attribute sigil decoding (ui.go `ExtractAttributesFromAlt`)

```go
const (
    RuneLoop         rune = '~'
    RuneAutoplay     rune = '>'
    RuneHideControls rune = '='
)
```
The Go function iterates over the runes of the alt text backwards; while in
the "attributes zone" it interprets sigil characters (silently dropping any
other non-space character), leaves the zone at the first space (consuming it),
and prepends every remaining character to the clean alt text. -/

def RuneLoop : Char := '~'

def RuneAutoplay : Char := '>'

def RuneHideControls : Char := '='

/-- `MediaAttributes` (ui.go): which HTML attributes the media embed gets. -/
structure MediaAttributes where
  Loop : Bool
  Autoplay : Bool
  Muted : Bool
  Playsinline : Bool
  Controls : Bool
deriving DecidableEq

def isMediaEmbedAttribute (char : Char) : Bool :=
  char = RuneAutoplay || char = RuneLoop || char = RuneHideControls

/-- The zero value of `MediaAttributes` with `Controls` added by default, as
built at the top of `ExtractAttributesFromAlt`. -/
def defaultMediaAttributes : MediaAttributes :=
  { Loop := false, Autoplay := false, Muted := false, Playsinline := false,
    Controls := true }

/-- The effect of one character inside the attributes zone. -/
def applySigil (attrs : MediaAttributes) (char : Char) : MediaAttributes :=
  if char = RuneAutoplay then { attrs with Autoplay := true, Muted := true }
  else if char = RuneLoop then { attrs with Loop := true }
  else if char = RuneHideControls then
    { attrs with Controls := false, Playsinline := true }
  else attrs

/-- The backward loop of `ExtractAttributesFromAlt`; the first argument is the
reversed alt text, since the Go code iterates from the last rune downwards,
and `altText` accumulates the clean alt by prepending. -/
def extractAttrsLoop : List Char → Bool → MediaAttributes → List Char →
    MediaAttributes × List Char
  | [], _, attrs, altText => (attrs, altText)
  | char :: rest, inAttributesZone, attrs, altText =>
    if char = ' ' && inAttributesZone then
      extractAttrsLoop rest false attrs altText
    else if inAttributesZone then
      extractAttrsLoop rest true (applySigil attrs char) altText
    else
      extractAttrsLoop rest false attrs (char :: altText)

/-- `ExtractAttributesFromAlt` (ui.go): extracts sigils from the end of the
alt text, returning the alt without them and the decoded attribute set.
(`utf8.DecodeLastRuneInString` on the empty string yields the replacement
rune, which is not a sigil, so an empty alt is returned unchanged.) -/
def ExtractAttributesFromAlt (alt : String) : String × MediaAttributes :=
  match alt.data.getLast? with
  | none => (alt, defaultMediaAttributes)
  | some lastRune =>
    if !isMediaEmbedAttribute lastRune then (alt, defaultMediaAttributes)
    else
      let r := extractAttrsLoop alt.data.reverse true defaultMediaAttributes []
      (String.mk r.2, r.1)

/-! ### Claim C4 -/

/-- C4 counterexample: decoding alt text `a photo>` does NOT return the clean
alt `a photo`: because the sigil is not separated from the text by a space,
the backward scan stays in the attributes zone until the first space and
silently drops the letters of `photo`, returning clean alt `a`.  The decoded
attribute set itself matches the claim. -/
theorem C4_counterexample :
    ExtractAttributesFromAlt "a photo>" =
      ("a", { Loop := false, Autoplay := true, Muted := true,
              Playsinline := false, Controls := true }) ∧
    ("a" : String) ≠ "a photo" :=
  ⟨rfl, by decide⟩

/-- C4 amended: alt `a photo>` decodes to clean alt `a` (every character back
to the separating space is consumed by the attributes zone, not only the
sigils) with attributes {autoplay, muted, controls}; an alt whose final
character is not a sigil character is returned unchanged with the default
attribute set {controls only}. -/
theorem C4_amended :
    ExtractAttributesFromAlt "a photo>" =
      ("a", { Loop := false, Autoplay := true, Muted := true,
              Playsinline := false, Controls := true }) ∧
    ExtractAttributesFromAlt "a photo" = ("a photo", defaultMediaAttributes) ∧
    defaultMediaAttributes =
      { Loop := false, Autoplay := false, Muted := false, Playsinline := false,
        Controls := true } :=
  ⟨rfl, rfl, rfl⟩

/-! ### Claim C5 -/

/-- The two cross-flag implications preserved by every sigil application. -/
def attrsCoherent (attrs : MediaAttributes) : Prop :=
  (attrs.Autoplay = true → attrs.Muted = true) ∧
    (attrs.Controls = false → attrs.Playsinline = true)

lemma applySigil_coherent {attrs : MediaAttributes} (char : Char)
    (h : attrsCoherent attrs) : attrsCoherent (applySigil attrs char) := by
  unfold applySigil attrsCoherent
  unfold attrsCoherent at h
  split
  · exact ⟨fun _ => rfl, h.2⟩
  · split
    · exact h
    · split
      · exact ⟨fun ha => h.1 ha, fun _ => rfl⟩
      · exact h

/-- Each flag can only be set (and `Controls` only cleared) by its own sigil
character. -/
lemma applySigil_origin {attrs : MediaAttributes} (char : Char) :
    ((applySigil attrs char).Loop = true → attrs.Loop = true ∨ char = '~') ∧
    ((applySigil attrs char).Autoplay = true →
      attrs.Autoplay = true ∨ char = '>') ∧
    ((applySigil attrs char).Muted = true → attrs.Muted = true ∨ char = '>') ∧
    ((applySigil attrs char).Playsinline = true →
      attrs.Playsinline = true ∨ char = '=') ∧
    ((applySigil attrs char).Controls = false →
      attrs.Controls = false ∨ char = '=') := by
  unfold applySigil RuneAutoplay RuneLoop RuneHideControls
  split
  · rename_i hc
    exact ⟨fun h => Or.inl h, fun _ => Or.inr hc, fun _ => Or.inr hc,
      fun h => Or.inl h, fun h => Or.inl h⟩
  · split
    · rename_i hc
      exact ⟨fun _ => Or.inr hc, fun h => Or.inl h, fun h => Or.inl h,
        fun h => Or.inl h, fun h => Or.inl h⟩
    · split
      · rename_i hc
        exact ⟨fun h => Or.inl h, fun h => Or.inl h, fun h => Or.inl h,
          fun _ => Or.inr hc, fun _ => Or.inr hc⟩
      · exact ⟨fun h => Or.inl h, fun h => Or.inl h, fun h => Or.inl h,
          fun h => Or.inl h, fun h => Or.inl h⟩

lemma extractAttrsLoop_coherent :
    ∀ (l : List Char) (zone : Bool) (attrs : MediaAttributes)
      (acc : List Char), attrsCoherent attrs →
      attrsCoherent (extractAttrsLoop l zone attrs acc).1 := by
  intro l
  induction l with
  | nil => intro zone attrs acc h; exact h
  | cons char rest ih =>
    intro zone attrs acc h
    unfold extractAttrsLoop
    split
    · exact ih false attrs acc h
    · split
      · exact ih true (applySigil attrs char) acc (applySigil_coherent char h)
      · exact ih false attrs (char :: acc) h

lemma extractAttrsLoop_origin :
    ∀ (l : List Char) (zone : Bool) (attrs : MediaAttributes)
      (acc : List Char),
      ((extractAttrsLoop l zone attrs acc).1.Loop = true →
        attrs.Loop = true ∨ '~' ∈ l) ∧
      ((extractAttrsLoop l zone attrs acc).1.Autoplay = true →
        attrs.Autoplay = true ∨ '>' ∈ l) ∧
      ((extractAttrsLoop l zone attrs acc).1.Muted = true →
        attrs.Muted = true ∨ '>' ∈ l) ∧
      ((extractAttrsLoop l zone attrs acc).1.Playsinline = true →
        attrs.Playsinline = true ∨ '=' ∈ l) ∧
      ((extractAttrsLoop l zone attrs acc).1.Controls = false →
        attrs.Controls = false ∨ '=' ∈ l) := by
  intro l
  induction l with
  | nil =>
    intro zone attrs acc
    exact ⟨fun h => Or.inl h, fun h => Or.inl h, fun h => Or.inl h,
      fun h => Or.inl h, fun h => Or.inl h⟩
  | cons char rest ih =>
    intro zone attrs acc
    unfold extractAttrsLoop
    split
    · have H := ih false attrs acc
      exact ⟨fun h => (H.1 h).imp id (List.mem_cons_of_mem _),
        fun h => (H.2.1 h).imp id (List.mem_cons_of_mem _),
        fun h => (H.2.2.1 h).imp id (List.mem_cons_of_mem _),
        fun h => (H.2.2.2.1 h).imp id (List.mem_cons_of_mem _),
        fun h => (H.2.2.2.2 h).imp id (List.mem_cons_of_mem _)⟩
    · split
      · have H := ih true (applySigil attrs char) acc
        have A := @applySigil_origin attrs char
        refine ⟨?_, ?_, ?_, ?_, ?_⟩ <;> intro h
        · rcases H.1 h with h2 | h2
          · rcases A.1 h2 with h3 | h3
            · exact Or.inl h3
            · exact Or.inr (by rw [h3]; exact List.mem_cons_self _ _)
          · exact Or.inr (List.mem_cons_of_mem _ h2)
        · rcases H.2.1 h with h2 | h2
          · rcases A.2.1 h2 with h3 | h3
            · exact Or.inl h3
            · exact Or.inr (by rw [h3]; exact List.mem_cons_self _ _)
          · exact Or.inr (List.mem_cons_of_mem _ h2)
        · rcases H.2.2.1 h with h2 | h2
          · rcases A.2.2.1 h2 with h3 | h3
            · exact Or.inl h3
            · exact Or.inr (by rw [h3]; exact List.mem_cons_self _ _)
          · exact Or.inr (List.mem_cons_of_mem _ h2)
        · rcases H.2.2.2.1 h with h2 | h2
          · rcases A.2.2.2.1 h2 with h3 | h3
            · exact Or.inl h3
            · exact Or.inr (by rw [h3]; exact List.mem_cons_self _ _)
          · exact Or.inr (List.mem_cons_of_mem _ h2)
        · rcases H.2.2.2.2 h with h2 | h2
          · rcases A.2.2.2.2 h2 with h3 | h3
            · exact Or.inl h3
            · exact Or.inr (by rw [h3]; exact List.mem_cons_self _ _)
          · exact Or.inr (List.mem_cons_of_mem _ h2)
      · have H := ih false attrs (char :: acc)
        exact ⟨fun h => (H.1 h).imp id (List.mem_cons_of_mem _),
          fun h => (H.2.1 h).imp id (List.mem_cons_of_mem _),
          fun h => (H.2.2.1 h).imp id (List.mem_cons_of_mem _),
          fun h => (H.2.2.2.1 h).imp id (List.mem_cons_of_mem _),
          fun h => (H.2.2.2.2 h).imp id (List.mem_cons_of_mem _)⟩

/-- C5: the decoded attribute set of any alt text satisfies the claimed
invariants — `Controls` is true unless the hide-controls sigil occurs in the
alt; `Loop`, `Autoplay`, `Muted`, `Playsinline` are false unless their sigil
occurs in the alt (they are only ever set); `Autoplay` implies `Muted`; and
cleared `Controls` implies `Playsinline`. -/
theorem C5_sigil_invariants (alt : String) :
    ((ExtractAttributesFromAlt alt).2.Autoplay = true →
      (ExtractAttributesFromAlt alt).2.Muted = true) ∧
    ((ExtractAttributesFromAlt alt).2.Controls = false →
      (ExtractAttributesFromAlt alt).2.Playsinline = true) ∧
    ((ExtractAttributesFromAlt alt).2.Loop = true → '~' ∈ alt.data) ∧
    ((ExtractAttributesFromAlt alt).2.Autoplay = true → '>' ∈ alt.data) ∧
    ((ExtractAttributesFromAlt alt).2.Muted = true → '>' ∈ alt.data) ∧
    ((ExtractAttributesFromAlt alt).2.Playsinline = true → '=' ∈ alt.data) ∧
    ('=' ∉ alt.data → (ExtractAttributesFromAlt alt).2.Controls = true) := by
  unfold ExtractAttributesFromAlt
  have hdef : attrsCoherent defaultMediaAttributes := ⟨by simp [defaultMediaAttributes], by simp [defaultMediaAttributes]⟩
  split
  · refine ⟨fun h => by simp [defaultMediaAttributes] at h, fun h => by simp [defaultMediaAttributes] at h,
      fun h => by simp [defaultMediaAttributes] at h, fun h => by simp [defaultMediaAttributes] at h,
      fun h => by simp [defaultMediaAttributes] at h, fun h => by simp [defaultMediaAttributes] at h,
      fun _ => rfl⟩
  · split
    · refine ⟨fun h => by simp [defaultMediaAttributes] at h, fun h => by simp [defaultMediaAttributes] at h,
        fun h => by simp [defaultMediaAttributes] at h, fun h => by simp [defaultMediaAttributes] at h,
        fun h => by simp [defaultMediaAttributes] at h, fun h => by simp [defaultMediaAttributes] at h,
        fun _ => rfl⟩
    · have hcoh := extractAttrsLoop_coherent alt.data.reverse true
        defaultMediaAttributes [] hdef
      have horig := extractAttrsLoop_origin alt.data.reverse true
        defaultMediaAttributes []
      refine ⟨hcoh.1, hcoh.2, ?_, ?_, ?_, ?_, ?_⟩
      · intro h
        rcases horig.1 h with h2 | h2
        · simp [defaultMediaAttributes] at h2
        · exact List.mem_reverse.mp h2
      · intro h
        rcases horig.2.1 h with h2 | h2
        · simp [defaultMediaAttributes] at h2
        · exact List.mem_reverse.mp h2
      · intro h
        rcases horig.2.2.1 h with h2 | h2
        · simp [defaultMediaAttributes] at h2
        · exact List.mem_reverse.mp h2
      · intro h
        rcases horig.2.2.2.1 h with h2 | h2
        · simp [defaultMediaAttributes] at h2
        · exact List.mem_reverse.mp h2
      · intro hmem
        by_contra hcon
        have hfalse : (extractAttrsLoop alt.data.reverse true
            defaultMediaAttributes []).1.Controls = false := by
          revert hcon
          cases (extractAttrsLoop alt.data.reverse true
            defaultMediaAttributes []).1.Controls <;> simp
        rcases horig.2.2.2.2 hfalse with h2 | h2
        · simp [defaultMediaAttributes] at h2
        · exact hmem (List.mem_reverse.mp h2)

/-- C5 witness: the invariants applied at concrete alt texts — `a >` has
autoplay set, hence muted; `a` contains no hide-controls sigil, hence keeps
controls. -/
theorem C5_sigil_invariants_witness :
    (ExtractAttributesFromAlt "a >").2.Muted = true ∧
      (ExtractAttributesFromAlt "a").2.Controls = true :=
  ⟨(C5_sigil_invariants "a >").1 (by decide),
    (C5_sigil_invariants "a").2.2.2.2.2.2 (by decide)⟩

/-! ## Header/body splitting (ui.go `ParseYAMLHeader`)

```go
for _, line := range strings.Split(descriptionRaw, "\n") {
    // Replace tabs with four spaces
    for strings.HasPrefix(line, "\t") {
        line = strings.Repeat(" ", 4) + strings.TrimPrefix(line, "\t")
    }
    // A YAML header separator is 3 or more dashes on a line ...
    if strings.Trim(line, "-") == "" && strings.Count(line, "-") >= 3 {
        inYAMLHeader = !inYAMLHeader
        continue
    }
    ...
}
```
The YAML decoding of the collected header into `WorkMetadata` is an excluded
serialization collaborator (spec section 1); we embed the split itself, which
is what claim C8 is about.  The inner tab loop is embedded with fuel
(`tabLoop`); `tabLoop_eq` proves that any positive fuel computes the Go
loop's fixpoint, since after one replacement the line starts with a space
and the loop guard fails. -/

/-- The Go `for strings.HasPrefix(line, "\t")` loop, with fuel. -/
def tabLoop : Nat → List Char → List Char
  | 0, l => l
  | n + 1, l =>
    match l with
    | [] => []
    | c :: rest =>
      if c = '\t' then tabLoop n ([' ', ' ', ' ', ' '] ++ rest) else c :: rest

/-- Written from the amended claim's words: before delimiter detection, only
the first leading tab of each line is expanded to four spaces; every other
tab is preserved. -/
def expandFirstLeadingTab (l : List Char) : List Char :=
  match l with
  | [] => []
  | c :: rest => if c = '\t' then [' ', ' ', ' ', ' '] ++ rest else c :: rest

lemma tabLoop_eq (n : Nat) (l : List Char) :
    tabLoop (n + 1) l = expandFirstLeadingTab l := by
  match l with
  | [] => rfl
  | c :: rest =>
    by_cases hc : c = '\t'
    · subst hc
      show tabLoop (n + 1) ('\t' :: rest) = _
      unfold tabLoop expandFirstLeadingTab
      simp only [if_pos rfl]
      match n with
      | 0 => rfl
      | m + 1 => rfl
    · unfold tabLoop expandFirstLeadingTab
      simp only [if_neg hc]

/-- Go `strings.Trim(l, "-")`: remove leading and trailing dashes. -/
def goTrim (l : List Char) (c : Char) : List Char :=
  ((l.dropWhile (· = c)).reverse.dropWhile (· = c)).reverse

/-- The YAML header delimiter test: a line of three or more dashes and
nothing else. -/
def isHeaderDelimiter (l : List Char) : Bool :=
  (goTrim l '-').isEmpty && 3 ≤ l.count '-'

structure YamlSplit where
  inYAMLHeader : Bool
  rawYAMLPart : String
  markdownPart : String
deriving DecidableEq

/-- One iteration of the `ParseYAMLHeader` loop. -/
def yamlStep (st : YamlSplit) (lineRaw : List Char) : YamlSplit :=
  let line := tabLoop (lineRaw.length + 1) lineRaw
  if isHeaderDelimiter line then { st with inYAMLHeader := !st.inYAMLHeader }
  else if st.inYAMLHeader then
    { st with rawYAMLPart := st.rawYAMLPart ++ String.mk line ++ "\n" }
  else
    { st with markdownPart := st.markdownPart ++ String.mk line ++ "\n" }

/-- `ParseYAMLHeader` (ui.go), up to the excluded YAML decoding: returns the
raw header text and the remaining body text. -/
def ParseYAMLHeader (descriptionRaw : String) : String × String :=
  let st := (splitNl descriptionRaw.data).foldl yamlStep
    { inYAMLHeader := false, rawYAMLPart := "", markdownPart := "" }
  (st.rawYAMLPart, st.markdownPart)

/-! ### Claim C8 -/

/-- C8 counterexample: tabs are NOT expanded everywhere — only the first
leading tab of a line is replaced by four spaces, so the body emitted by
header/body splitting still contains the second leading tab and the mid-line
tab of the line `\t\tx\ty`. -/
theorem C8_counterexample :
    ParseYAMLHeader "---\na: 1\n---\n\t\tx\ty" = ("a: 1\n", "    \tx\ty\n") ∧
      '\t' ∈ (ParseYAMLHeader "---\na: 1\n---\n\t\tx\ty").2.data :=
  ⟨rfl, by decide⟩

/-- The amended per-line step. -/
def yamlStepAmended (st : YamlSplit) (lineRaw : List Char) : YamlSplit :=
  let line := expandFirstLeadingTab lineRaw
  if isHeaderDelimiter line then { st with inYAMLHeader := !st.inYAMLHeader }
  else if st.inYAMLHeader then
    { st with rawYAMLPart := st.rawYAMLPart ++ String.mk line ++ "\n" }
  else
    { st with markdownPart := st.markdownPart ++ String.mk line ++ "\n" }

/-- Header/body splitting as described by the amended claim. -/
def parseYAMLHeaderAmended (descriptionRaw : String) : String × String :=
  let st := (splitNl descriptionRaw.data).foldl yamlStepAmended
    { inYAMLHeader := false, rawYAMLPart := "", markdownPart := "" }
  (st.rawYAMLPart, st.markdownPart)

lemma yamlStep_eq_amended (st : YamlSplit) (lineRaw : List Char) :
    yamlStep st lineRaw = yamlStepAmended st lineRaw := by
  unfold yamlStep yamlStepAmended
  rw [tabLoop_eq]

/-- C8 amended: the header/body splitter expands exactly one leading tab per
line into four spaces (tabs elsewhere are preserved) before delimiter
detection — i.e. `ParseYAMLHeader` coincides with the single-expansion
description `parseYAMLHeaderAmended` on every document. -/
theorem C8_amended (descriptionRaw : String) :
    ParseYAMLHeader descriptionRaw = parseYAMLHeaderAmended descriptionRaw := by
  unfold ParseYAMLHeader parseYAMLHeaderAmended
  have : ∀ (lines : List (List Char)) (st : YamlSplit),
      lines.foldl yamlStep st = lines.foldl yamlStepAmended st := by
    intro lines
    induction lines with
    | nil => intro st; rfl
    | cons l rest ih =>
      intro st
      rw [List.foldl_cons, List.foldl_cons, yamlStep_eq_amended, ih]
  rw [this]

/-! ## Abbreviation substitution (ui.go `ReplaceAbbreviations`)

```go
func ReplaceAbbreviations(paragraph Paragraph, currentLanguageAbbreviations Abbreviations) Paragraph {
    processed := paragraph.Content
    for name, definition := range currentLanguageAbbreviations {
        var replacePattern = regexp.MustCompile(`\b` + name + `\b`)
        processed = HTMLString(replacePattern.ReplaceAllString(string(paragraph.Content), "<abbr title=\""+definition+"\">"+name+"</abbr>"))
    }
    return Paragraph{Content: processed}
}
```
Note that every loop iteration replaces in `paragraph.Content` — the original
— not in `processed`, so only the last-iterated map entry's replacement
survives.  The whole-word replacement itself (`\b term \b` over a literal
term, as in the claim's examples) is embedded as a leftmost, non-overlapping
scanner with ASCII word boundaries, which is RE2's behavior for a literal
pattern framed by word-boundary assertions. -/

/-- RE2 ASCII word character `[0-9A-Za-z_]`. -/
def isWordChar (c : Char) : Bool :=
  c.isAlphanum || c = '_'

/-- Word-ness of the character to the right of a position (false at the end
of the text). -/
def nextIsWord : List Char → Bool
  | [] => false
  | d :: _ => isWordChar d

/-- Does `\b pat \b` match at the start of `s`, given the word-ness of the
character immediately before `s` in the full text? -/
def wwMatchAt (pat : List Char) (prevIsWord : Bool) (s : List Char) : Bool :=
  !pat.isEmpty && pat.isPrefixOf s &&
    (prevIsWord != isWordChar (pat.headD ' ')) &&
    (isWordChar (pat.getLastD ' ') != nextIsWord (s.drop pat.length))

/-- Leftmost non-overlapping replacement of whole-word occurrences of `pat`
by `rep` (Go `regexp.ReplaceAllString` with pattern `\b`+pat+`\b`).  Each
step consumes at least one character, so any fuel of at least the text's
length computes the full scan; the fuel only makes the recursion
structural. -/
def replaceWW (fuel : Nat) (pat rep : List Char) (prevIsWord : Bool)
    (s : List Char) : List Char :=
  match fuel, s with
  | 0, s => s
  | _ + 1, [] => []
  | n + 1, c :: rest =>
    if wwMatchAt pat prevIsWord (c :: rest) then
      rep ++ replaceWW n pat rep (isWordChar (pat.getLastD ' '))
        ((c :: rest).drop pat.length)
    else
      c :: replaceWW n pat rep (isWordChar c) rest

/-- String-level whole-word replacement of `name` by `rep` in `content`. -/
def replaceWholeWord (name rep content : String) : String :=
  String.mk
    (replaceWW (content.data.length + 1) name.data rep.data false content.data)

/-- `Paragraph` (ui.go). -/
structure Paragraph where
  ID : String
  Index : Int
  Anchor : String
  Content : String
deriving DecidableEq

/-- `ReplaceAbbreviations` (ui.go), faithfully including that each iteration
replaces in `paragraph.Content` (the fold accumulator is overwritten, not
threaded) and that the result drops the paragraph's ID, index and anchor
(Go `Paragraph{Content: processed}` zero-values them). -/
def ReplaceAbbreviations (paragraph : Paragraph)
    (currentLanguageAbbreviations : List (String × String)) : Paragraph :=
  let processed := currentLanguageAbbreviations.foldl
    (fun _ nd =>
      replaceWholeWord nd.1
        ("<abbr title=\"" ++ nd.2 ++ "\">" ++ nd.1 ++ "</abbr>")
        paragraph.Content)
    paragraph.Content
  { ID := "", Index := 0, Anchor := "", Content := processed }

/-- The paragraph post-processing stage at the end of
`ParseSingleLanguageDescription` (ui.go): `processedParagraphs` is built —
skipping paragraphs that are a single preformatted block and applying
`ReplaceAbbreviations` to the rest — but the bare `return` returns the named
result `paragraphs` unchanged, so the processed list is discarded. -/
def postProcessParagraphs (paragraphs : List Paragraph)
    (abbreviations : List (String × String)) : List Paragraph :=
  let _processedParagraphs := paragraphs.foldl
    (fun acc paragraph =>
      if paragraph.Content.startsWith "<pre>" &&
          paragraph.Content.endsWith "</pre>" then acc
      else acc ++ [ReplaceAbbreviations paragraph abbreviations])
    []
  paragraphs

/-! ### Claim C2 -/

/-- C2: evaluating the code at the failing input.  With two abbreviations
`API` and `CLI` and the paragraph `Use the API and the CLI now`:
`ReplaceAbbreviations` wraps only the last-iterated term (`CLI`) because every
loop iteration replaces in the original content, and the surrounding
post-processing stage discards even that, returning the paragraphs unchanged
— so the claim's required wrapping of every term never reaches the output. -/
theorem C2_code_bug :
    (ReplaceAbbreviations
        { ID := "p1", Index := 0, Anchor := "",
          Content := "Use the API and the CLI now" }
        [("API", "Application Programming Interface"),
         ("CLI", "Command Line Interface")]).Content =
      "Use the API and the <abbr title=\"Command Line Interface\">CLI</abbr> now" ∧
    postProcessParagraphs
        [{ ID := "p1", Index := 0, Anchor := "",
           Content := "Use the API and the CLI now" }]
        [("API", "Application Programming Interface"),
         ("CLI", "Command Line Interface")] =
      [{ ID := "p1", Index := 0, Anchor := "",
         Content := "Use the API and the CLI now" }] :=
  ⟨rfl, rfl⟩

/-! ## Media analysis (`AnalyzeAllMediae`)

The raw media prober `AnalyzeMediaFile` is scoped out by the specification
("raw media analysis … is consumed as an opaque analyzer"), as are URL
validity checking and absolute-path resolution (`filepath.Abs` depends on the
process working directory, and the scattered-mode directory adjustment on the
run configuration); these become the fields of `MediaEnv`.  The duplicate
handling itself — the `analyzedMediaeBySource` cache — is embedded exactly:

```go
// Skip already-analyzed
if alreadyAnalyzedMedia, ok := analyzedMediaeBySource[filename]; ok {
    // Update fields independent of media.Source
    alreadyAnalyzedMedia.Alt = media.Alt
    alreadyAnalyzedMedia.Attributes = media.Attributes
    alreadyAnalyzedMedia.Title = media.Title
    analyzedMediae[language] = append(analyzedMediae[language], alreadyAnalyzedMedia)
    continue
}
```
-/

/-- `ImageDimensions` (media file).  `AspectRatio` is a `float32` in Go; the
pipeline only carries it, never computes with it, so it is embedded as a
rational. -/
structure ImageDimensions where
  Width : Int
  Height : Int
  AspectRatio : Rat
deriving DecidableEq

/-- `MediaEmbedDeclaration` (ui.go): what the description syntax declares. -/
structure MediaEmbedDeclaration where
  Anchor : String
  ID : String
  Alt : String
  Title : String
  Source : String
  Attributes : MediaAttributes
deriving DecidableEq

/-- `Media` (media file): an analyzed media entry. -/
structure Media where
  ID : String
  Alt : String
  Title : String
  Source : String
  Path : String
  ContentType : String
  Size : Nat
  Dimensions : ImageDimensions
  Duration : Nat
  Online : Bool
  Attributes : MediaAttributes
  HasSound : Bool
deriving DecidableEq

/-- The Go zero value of `Media`. -/
def zeroMedia : Media :=
  { ID := "", Alt := "", Title := "", Source := "", Path := "",
    ContentType := "", Size := 0,
    Dimensions := { Width := 0, Height := 0, AspectRatio := 0 },
    Duration := 0, Online := false,
    Attributes := { Loop := false, Autoplay := false, Muted := false,
                    Playsinline := false, Controls := false },
    HasSound := false }

/-- The external collaborators of `AnalyzeAllMediae`. -/
structure MediaEnv where
  isValidURL : String → Bool
  resolveFilename : String → String
  analyze : String → MediaEmbedDeclaration → Except String Media

/-- The cross-language state of `AnalyzeAllMediae`: the by-source cache and
the list of filenames actually passed to the analyzer (one entry per
`AnalyzeMediaFile` call). -/
structure MediaState where
  cache : List (String × Media)
  log : List String
deriving DecidableEq

/-- One iteration of the inner loop of `AnalyzeAllMediae`. -/
def analyzeOne (env : MediaEnv) (st : MediaState) (out : List Media)
    (media : MediaEmbedDeclaration) :
    Except String (MediaState × List Media) :=
  if env.isValidURL media.Source then
    let onlineMedia : Media :=
      { zeroMedia with
        Alt := media.Alt, Title := media.Title,
        Source := media.Source, Online := true,
        Attributes := media.Attributes }
    Except.ok (st, out ++ [onlineMedia])
  else
    let filename := env.resolveFilename media.Source
    match alookup st.cache filename with
    | some alreadyAnalyzedMedia =>
      let updated : Media :=
        { alreadyAnalyzedMedia with
          Alt := media.Alt,
          Attributes := media.Attributes, Title := media.Title }
      Except.ok (st, out ++ [updated])
    | none =>
      match env.analyze filename media with
      | Except.error e => Except.error e
      | Except.ok analyzedMedia =>
        Except.ok
          ({ cache := st.cache ++ [(filename, analyzedMedia)],
             log := st.log ++ [filename] },
           out ++ [analyzedMedia])

/-- The inner loop of `AnalyzeAllMediae` over one language's declarations. -/
def processMediae (env : MediaEnv) (st : MediaState) (out : List Media) :
    List MediaEmbedDeclaration → Except String (MediaState × List Media)
  | [] => Except.ok (st, out)
  | d :: rest =>
    match analyzeOne env st out d with
    | Except.error e => Except.error e
    | Except.ok (st', out') => processMediae env st' out' rest

/-- The outer loop of `AnalyzeAllMediae` over the languages (embedded as an
association list: Go map iteration order is unspecified), threading the
by-source cache across languages. -/
def analyzeAllMediaeCore (env : MediaEnv) (st : MediaState) :
    List (String × List MediaEmbedDeclaration) →
      Except String (MediaState × List (String × List Media))
  | [] => Except.ok (st, [])
  | (language, mediae) :: rest =>
    match processMediae env st [] mediae with
    | Except.error e => Except.error e
    | Except.ok (st', out) =>
      match analyzeAllMediaeCore env st' rest with
      | Except.error e => Except.error e
      | Except.ok (st'', results) =>
        Except.ok (st'', (language, out) :: results)

/-- `AnalyzeAllMediae` (media file): analyzed mediae per language, or the
first analysis error (Go returns an empty map together with the error). -/
def AnalyzeAllMediae (env : MediaEnv)
    (embedDeclarations : List (String × List MediaEmbedDeclaration)) :
    Except String (List (String × List Media)) :=
  (analyzeAllMediaeCore env { cache := [], log := [] } embedDeclarations).map
    fun r => r.2

/-! ### Lemmas about the by-source cache -/

lemma alookup_append_single_ne {α : Type} (l : List (String × α))
    {k k' : String} (v : α) (h : k' ≠ k) :
    alookup (l ++ [(k', v)]) k = alookup l k := by
  induction l with
  | nil => simp [alookup, h]
  | cons kv rest ih =>
    by_cases hk : kv.1 = k
    · simp [alookup, hk]
    · simp [alookup, hk, ih]

lemma alookup_append_self_of_none {α : Type} {l : List (String × α)}
    {k : String} (v : α) (h : alookup l k = none) :
    alookup (l ++ [(k, v)]) k = some v := by
  induction l with
  | nil => simp [alookup]
  | cons kv rest ih =>
    by_cases hk : kv.1 = k
    · rw [alookup, if_pos hk] at h; exact absurd h (by simp)
    · rw [alookup, if_neg hk] at h
      simp only [List.cons_append, alookup, if_neg hk]
      exact ih h

/-- Processing declarations none of which resolves to `f` (or which are URLs)
neither touches the cache entry for `f` nor analyzes `f`, and only appends to
the output. -/
lemma processMediae_avoid (env : MediaEnv)
    (g : String → MediaEmbedDeclaration → Media)
    (hga : ∀ fn d, env.analyze fn d = Except.ok (g fn d)) (f : String) :
    ∀ (ds : List MediaEmbedDeclaration) (st : MediaState) (out : List Media),
      (∀ d ∈ ds, env.isValidURL d.Source = true ∨
        env.resolveFilename d.Source ≠ f) →
      ∃ st' out2, processMediae env st out ds = Except.ok (st', out ++ out2) ∧
        alookup st'.cache f = alookup st.cache f ∧
        st'.log.count f = st.log.count f := by
  intro ds
  induction ds with
  | nil =>
    intro st out _
    exact ⟨st, [], by simp [processMediae], rfl, rfl⟩
  | cons d rest ih =>
    intro st out hds
    have hd := hds d (by simp)
    have hrest : ∀ x ∈ rest, env.isValidURL x.Source = true ∨
        env.resolveFilename x.Source ≠ f := by
      intro x hx; exact hds x (by simp [hx])
    by_cases hurl : env.isValidURL d.Source = true
    · -- URL branch: state unchanged
      have hstep : analyzeOne env st out d = Except.ok (st, out ++
          [{ zeroMedia with
             Alt := d.Alt, Title := d.Title, Source := d.Source,
             Online := true, Attributes := d.Attributes }]) := by
        unfold analyzeOne
        rw [hurl]
        simp
      obtain ⟨st', out2, hrun, hcache, hcount⟩ := ih st (out ++
        [{ zeroMedia with
           Alt := d.Alt, Title := d.Title, Source := d.Source,
           Online := true, Attributes := d.Attributes }]) hrest
      refine ⟨st', [{ zeroMedia with
           Alt := d.Alt, Title := d.Title, Source := d.Source,
           Online := true, Attributes := d.Attributes }] ++ out2, ?_, hcache,
        hcount⟩
      rw [processMediae, hstep]
      dsimp only
      rw [hrun]
      simp
    · -- local file resolving to some fn ≠ f
      have hne : env.resolveFilename d.Source ≠ f := by
        rcases hd with h | h
        · exact absurd h hurl
        · exact h
      have hurl2 : env.isValidURL d.Source = false := by
        revert hurl; cases env.isValidURL d.Source <;> simp
      cases hcachehit : alookup st.cache (env.resolveFilename d.Source) with
      | some a =>
        have hstep : analyzeOne env st out d = Except.ok (st, out ++
            [{ a with
               Alt := d.Alt, Attributes := d.Attributes,
               Title := d.Title }]) := by
          unfold analyzeOne
          rw [hurl2]
          simp only [Bool.false_eq_true, if_false, hcachehit]
        obtain ⟨st', out2, hrun, hcache, hcount⟩ := ih st (out ++
          [{ a with
             Alt := d.Alt, Attributes := d.Attributes, Title := d.Title }])
          hrest
        refine ⟨st', [{ a with
             Alt := d.Alt, Attributes := d.Attributes,
             Title := d.Title }] ++ out2, ?_, hcache, hcount⟩
        rw [processMediae, hstep]
        dsimp only
        rw [hrun]
        simp
      | none =>
        have hstep : analyzeOne env st out d = Except.ok
            ({ cache := st.cache ++
                 [(env.resolveFilename d.Source,
                   g (env.resolveFilename d.Source) d)],
               log := st.log ++ [env.resolveFilename d.Source] },
             out ++ [g (env.resolveFilename d.Source) d]) := by
          unfold analyzeOne
          rw [hurl2]
          simp only [Bool.false_eq_true, if_false, hcachehit, hga]
        obtain ⟨st', out2, hrun, hcache, hcount⟩ := ih
          { cache := st.cache ++
              [(env.resolveFilename d.Source,
                g (env.resolveFilename d.Source) d)],
            log := st.log ++ [env.resolveFilename d.Source] }
          (out ++ [g (env.resolveFilename d.Source) d]) hrest
        refine ⟨st', [g (env.resolveFilename d.Source) d] ++ out2, ?_, ?_, ?_⟩
        · rw [processMediae, hstep]
          dsimp only
          rw [hrun]
          simp
        · rw [hcache]
          exact alookup_append_single_ne _ _ hne
        · rw [hcount]
          have hz : List.count f [env.resolveFilename d.Source] = 0 := by
            simp [List.count_cons]
            exact hne
          simp [List.count_append, hz]

/-- Once a file is in the by-source cache, processing any further declarations
leaves its cache entry untouched and never analyzes it again (cache entries
are only ever inserted for files that missed the cache). -/
lemma processMediae_hit (env : MediaEnv)
    (g : String → MediaEmbedDeclaration → Media)
    (hga : ∀ fn d, env.analyze fn d = Except.ok (g fn d)) (f : String)
    (a : Media) :
    ∀ (ds : List MediaEmbedDeclaration) (st : MediaState) (out : List Media),
      alookup st.cache f = some a →
      ∃ st' out2, processMediae env st out ds = Except.ok (st', out ++ out2) ∧
        alookup st'.cache f = some a ∧
        st'.log.count f = st.log.count f := by
  intro ds
  induction ds with
  | nil =>
    intro st out hst
    exact ⟨st, [], by simp [processMediae], hst, rfl⟩
  | cons d rest ih =>
    intro st out hst
    by_cases hurl : env.isValidURL d.Source = true
    · have hstep : analyzeOne env st out d = Except.ok (st, out ++
          [{ zeroMedia with
             Alt := d.Alt, Title := d.Title, Source := d.Source,
             Online := true, Attributes := d.Attributes }]) := by
        unfold analyzeOne
        rw [hurl]
        simp
      obtain ⟨st', out2, hrun, hcache, hcount⟩ := ih st (out ++
        [{ zeroMedia with
           Alt := d.Alt, Title := d.Title, Source := d.Source,
           Online := true, Attributes := d.Attributes }]) hst
      refine ⟨st', [{ zeroMedia with
           Alt := d.Alt, Title := d.Title, Source := d.Source,
           Online := true, Attributes := d.Attributes }] ++ out2, ?_, hcache,
        hcount⟩
      rw [processMediae, hstep]
      dsimp only
      rw [hrun]
      simp
    · have hurl2 : env.isValidURL d.Source = false := by
        revert hurl; cases env.isValidURL d.Source <;> simp
      cases hcachehit : alookup st.cache (env.resolveFilename d.Source) with
      | some b =>
        have hstep : analyzeOne env st out d = Except.ok (st, out ++
            [{ b with
               Alt := d.Alt, Attributes := d.Attributes,
               Title := d.Title }]) := by
          unfold analyzeOne
          rw [hurl2]
          simp only [Bool.false_eq_true, if_false, hcachehit]
        obtain ⟨st', out2, hrun, hcache, hcount⟩ := ih st (out ++
          [{ b with
             Alt := d.Alt, Attributes := d.Attributes, Title := d.Title }])
          hst
        refine ⟨st', [{ b with
             Alt := d.Alt, Attributes := d.Attributes,
             Title := d.Title }] ++ out2, ?_, hcache, hcount⟩
        rw [processMediae, hstep]
        dsimp only
        rw [hrun]
        simp
      | none =>
        have hne : env.resolveFilename d.Source ≠ f := by
          intro he
          rw [he, hst] at hcachehit
          exact absurd hcachehit (by simp)
        have hstep : analyzeOne env st out d = Except.ok
            ({ cache := st.cache ++
                 [(env.resolveFilename d.Source,
                   g (env.resolveFilename d.Source) d)],
               log := st.log ++ [env.resolveFilename d.Source] },
             out ++ [g (env.resolveFilename d.Source) d]) := by
          unfold analyzeOne
          rw [hurl2]
          simp only [Bool.false_eq_true, if_false, hcachehit, hga]
        have hst2 : alookup (st.cache ++
            [(env.resolveFilename d.Source,
              g (env.resolveFilename d.Source) d)]) f = some a := by
          rw [alookup_append_single_ne _ _ hne]
          exact hst
        obtain ⟨st', out2, hrun, hcache, hcount⟩ := ih
          { cache := st.cache ++
              [(env.resolveFilename d.Source,
                g (env.resolveFilename d.Source) d)],
            log := st.log ++ [env.resolveFilename d.Source] }
          (out ++ [g (env.resolveFilename d.Source) d]) hst2
        refine ⟨st', [g (env.resolveFilename d.Source) d] ++ out2, ?_, hcache,
          ?_⟩
        · rw [processMediae, hstep]
          dsimp only
          rw [hrun]
          simp
        · rw [hcount]
          have hz : List.count f [env.resolveFilename d.Source] = 0 := by
            simp [List.count_cons]
            exact hne
          simp [List.count_append, hz]

/-- Splitting the inner loop at a list append. -/
lemma processMediae_append (env : MediaEnv)
    (ds₁ ds₂ : List MediaEmbedDeclaration) :
    ∀ (st : MediaState) (out : List Media),
      processMediae env st out (ds₁ ++ ds₂) =
        match processMediae env st out ds₁ with
        | Except.error e => Except.error e
        | Except.ok (st', out') => processMediae env st' out' ds₂ := by
  induction ds₁ with
  | nil =>
    intro st out
    simp [processMediae]
  | cons d rest ih =>
    intro st out
    rw [List.cons_append, processMediae, processMediae]
    cases hstep : analyzeOne env st out d with
    | error e => rfl
    | ok p =>
      obtain ⟨st', out'⟩ := p
      dsimp only
      exact ih st' out'

/-! ### Claim C7 -/

/-- C7: when several embed declarations of one work resolve to the same local
file, the analyzer is invoked exactly once for that file (the log of analyzed
filenames counts it once) and every subsequent occurrence's entry is the first
occurrence's analyzed record with only `Alt`, `Title` and `Attributes`
replaced by the later declaration's own values.  Here `d₁` is the first
declaration resolving to file `f` (nothing in `ds₁` resolves to it), `d₂` any
later one (`ds₂` is arbitrary, and may itself mention `f`), and the analyzer
is total (`g`). -/
theorem C7_duplicate_media (env : MediaEnv)
    (g : String → MediaEmbedDeclaration → Media)
    (hga : ∀ fn d, env.analyze fn d = Except.ok (g fn d))
    (lang f : String) (ds₁ ds₂ : List MediaEmbedDeclaration)
    (d₁ d₂ : MediaEmbedDeclaration)
    (hu₁ : env.isValidURL d₁.Source = false)
    (hu₂ : env.isValidURL d₂.Source = false)
    (hr₁ : env.resolveFilename d₁.Source = f)
    (hr₂ : env.resolveFilename d₂.Source = f)
    (hfirst : ∀ d ∈ ds₁, env.isValidURL d.Source = true ∨
      env.resolveFilename d.Source ≠ f) :
    ∃ (st' : MediaState) (pre : List Media),
      analyzeAllMediaeCore env { cache := [], log := [] }
          [(lang, ds₁ ++ d₁ :: (ds₂ ++ [d₂]))] =
        Except.ok (st', [(lang, pre ++
          [{ g f d₁ with
             Alt := d₂.Alt, Title := d₂.Title,
             Attributes := d₂.Attributes }])]) ∧
      st'.log.count f = 1 ∧
      AnalyzeAllMediae env [(lang, ds₁ ++ d₁ :: (ds₂ ++ [d₂]))] =
        Except.ok [(lang, pre ++
          [{ g f d₁ with
             Alt := d₂.Alt, Title := d₂.Title,
             Attributes := d₂.Attributes }])] := by
  obtain ⟨st₁, out₁, hrun₁, hcache₁, hcount₁⟩ :=
    processMediae_avoid env g hga f ds₁ { cache := [], log := [] } [] hfirst
  have hcache₁' : alookup st₁.cache f = none := by
    rw [hcache₁]; rfl
  have hcount₁' : st₁.log.count f = 0 := by
    rw [hcount₁]; rfl
  have hstep₁ : analyzeOne env st₁ ([] ++ out₁) d₁ = Except.ok
      ({ cache := st₁.cache ++ [(f, g f d₁)], log := st₁.log ++ [f] },
       ([] ++ out₁) ++ [g f d₁]) := by
    unfold analyzeOne
    rw [hu₁]
    simp only [Bool.false_eq_true, if_false, hr₁, hcache₁', hga]
  obtain ⟨st₂, out₂, hrun₂, hcache₂, hcount₂⟩ :=
    processMediae_hit env g hga f (g f d₁) ds₂
      { cache := st₁.cache ++ [(f, g f d₁)], log := st₁.log ++ [f] }
      (([] ++ out₁) ++ [g f d₁])
      (alookup_append_self_of_none _ hcache₁')
  have hstep₂ : analyzeOne env st₂ ((([] ++ out₁) ++ [g f d₁]) ++ out₂) d₂ =
      Except.ok (st₂, (((([] ++ out₁) ++ [g f d₁]) ++ out₂) ++
        [{ g f d₁ with
           Alt := d₂.Alt, Attributes := d₂.Attributes,
           Title := d₂.Title }])) := by
    unfold analyzeOne
    rw [hu₂]
    simp only [Bool.false_eq_true, if_false, hr₂, hcache₂]
  have hfull : processMediae env { cache := [], log := [] } []
      (ds₁ ++ d₁ :: (ds₂ ++ [d₂])) =
      Except.ok (st₂, (((([] ++ out₁) ++ [g f d₁]) ++ out₂) ++
        [{ g f d₁ with
           Alt := d₂.Alt, Attributes := d₂.Attributes,
           Title := d₂.Title }])) := by
    rw [processMediae_append, hrun₁]
    dsimp only
    rw [processMediae, hstep₁]
    dsimp only
    rw [processMediae_append, hrun₂]
    dsimp only
    rw [processMediae, hstep₂]
    dsimp only
    rw [processMediae]
  have hcount : st₂.log.count f = 1 := by
    rw [hcount₂]
    simp [List.count_append, hcount₁']
  refine ⟨st₂, out₁ ++ [g f d₁] ++ out₂, ?_, hcount, ?_⟩
  · unfold analyzeAllMediaeCore
    rw [hfull]
    dsimp only
    rw [analyzeAllMediaeCore]
    simp
  · unfold AnalyzeAllMediae
    unfold analyzeAllMediaeCore
    rw [hfull]
    dsimp only
    rw [analyzeAllMediaeCore]
    simp [Except.map]

/-- A concrete total analyzer for the C7 witness. -/
def analyzeW (fn : String) (d : MediaEmbedDeclaration) : Media :=
  { zeroMedia with
    ID := "m1", Source := d.Source, Alt := d.Alt, Title := d.Title,
    Path := fn, ContentType := "image/png", Size := 5 }

/-- A concrete environment for the C7 witness: no URLs, identity path
resolution. -/
def mediaEnvW : MediaEnv :=
  { isValidURL := fun _ => false,
    resolveFilename := fun s => s,
    analyze := fun fn d => Except.ok (analyzeW fn d) }

/-- First declaration of the duplicated file for the C7 witness. -/
def declW1 : MediaEmbedDeclaration :=
  { Anchor := "", ID := "b1", Alt := "first", Title := "t1",
    Source := "a.png", Attributes := defaultMediaAttributes }

/-- Later declaration of the same file for the C7 witness. -/
def declW2 : MediaEmbedDeclaration :=
  { Anchor := "", ID := "b2", Alt := "second", Title := "t2",
    Source := "a.png",
    Attributes := { defaultMediaAttributes with Loop := true } }

/-- C7 witness: the duplicate-media theorem applied to a concrete work with
two declarations of `a.png`. -/
theorem C7_duplicate_media_witness :
    ∃ (st' : MediaState) (pre : List Media),
      analyzeAllMediaeCore mediaEnvW { cache := [], log := [] }
          [("default", [] ++ declW1 :: ([] ++ [declW2]))] =
        Except.ok (st', [("default", pre ++
          [{ analyzeW "a.png" declW1 with
             Alt := declW2.Alt, Title := declW2.Title,
             Attributes := declW2.Attributes }])]) ∧
      st'.log.count "a.png" = 1 ∧
      AnalyzeAllMediae mediaEnvW [("default", [] ++ declW1 :: ([] ++ [declW2]))] =
        Except.ok [("default", pre ++
          [{ analyzeW "a.png" declW1 with
             Alt := declW2.Alt, Title := declW2.Title,
             Attributes := declW2.Attributes }])] :=
  C7_duplicate_media mediaEnvW analyzeW (fun _ _ => rfl) "default" "a.png"
    [] [] declW1 declW2 rfl rfl rfl rfl (by simp)

/-! ## Layout resolution (spec section 4.7)

`ResolveLayout` itself is not under src/ — only its call site is
(build.go):

```go
layout, err := ResolveLayout(description, lang)
if err != nil {
    return AnalyzedWork{}, fmt.Errorf("while resolving %s layout of %s: %w", lang, workID, err)
}
```

so the resolver is modelled from the spec and the call-site error wrapping is
embedded from the source. -/

lemma string_data_append (a b : String) : (a ++ b).data = a.data ++ b.data :=
  rfl

lemma string_append_assoc (a b c : String) : a ++ b ++ c = a ++ (b ++ c) := by
  apply String.ext
  simp only [string_data_append, List.append_assoc]

/-- Modelled from the spec: the descriptive error of spec section 4.7,
identifying the language and the dangling block reference. -/
def layoutErrorMessage (language id : String) : String :=
  "layout references block " ++ id ++
    ", which does not exist in language " ++ language

/-- The first cell of the declared rows that is neither the empty-cell
sentinel (the empty string) nor a block ID of the order sequence. -/
def firstDangling (rows : List (List String)) (order : List String) :
    Option String :=
  match rows with
  | [] => none
  | row :: rest =>
    match row.find? (fun c => !(c = "") && !(order.contains c)) with
    | some c => some c
    | none => firstDangling rest order

/-- Modelled from the spec: `ResolveLayout` is absent from src/ (only its
call site in build.go survives).  Per spec section 4.7 it maps the language's
content-block order and an optional author-declared layout (rows of cells,
each a block ID or the empty-cell sentinel) to a 2-D grid: with no declared
layout, one block per row in order; a declared cell referencing a block ID
absent from the order sequence fails with a descriptive error naming the
language and the dangling ID; it never drops or substitutes references. -/
def ResolveLayout (declaredLayout : Option (List (List String)))
    (language : String) (order : List String) :
    Except String (List (List String)) :=
  match declaredLayout with
  | none => Except.ok (order.map fun id => [id])
  | some rows =>
    match firstDangling rows order with
    | some id => Except.error (layoutErrorMessage language id)
    | none => Except.ok rows

/-- The call site of `ResolveLayout` in `RunContext.Build` (build.go),
wrapping the resolver error with the language and work ID. -/
def resolveLayoutAt (workID language : String)
    (declaredLayout : Option (List (List String))) (order : List String) :
    Except String (List (List String)) :=
  match ResolveLayout declaredLayout language order with
  | Except.error e =>
    Except.error ("while resolving " ++ language ++ " layout of " ++ workID ++
      ": " ++ e)
  | Except.ok layout => Except.ok layout

lemma firstDangling_spec {rows : List (List String)} {order : List String}
    {id : String} (h : firstDangling rows order = some id) :
    id ≠ "" ∧ id ∉ order ∧ ∃ row ∈ rows, id ∈ row := by
  induction rows with
  | nil => exact absurd h (by simp [firstDangling])
  | cons row rest ih =>
    rw [firstDangling] at h
    cases hfind : row.find? (fun c => !(c = "") && !(order.contains c)) with
    | some c =>
      rw [hfind] at h
      have hc := Option.some.inj h
      subst hc
      have hp := List.find?_some hfind
      have hmem := List.mem_of_find?_eq_some hfind
      simp only [Bool.and_eq_true, Bool.not_eq_true'] at hp
      refine ⟨?_, ?_, row, by simp, hmem⟩
      · intro he
        rcases hp with ⟨hp1, _⟩
        rw [he] at hp1
        simp at hp1
      · intro hmem2
        rcases hp with ⟨_, hp2⟩
        have hno : c ∉ order := by simpa using hp2
        exact hno hmem2
    | none =>
      rw [hfind] at h
      obtain ⟨h1, h2, row', hrow', hid⟩ := ih h
      exact ⟨h1, h2, row', by simp [hrow'], hid⟩

lemma firstDangling_isSome {rows : List (List String)} {order : List String}
    (h : ∃ row ∈ rows, ∃ id ∈ row, id ≠ "" ∧ id ∉ order) :
    (firstDangling rows order).isSome := by
  induction rows with
  | nil => simp at h
  | cons row rest ih =>
    rw [firstDangling]
    cases hfind : row.find? (fun c => !(c = "") && !(order.contains c)) with
    | some c => simp
    | none =>
      apply ih
      obtain ⟨row', hrow', id, hid, hne, hnot⟩ := h
      rcases List.mem_cons.mp hrow' with heq | hmem
      · subst heq
        exfalso
        have hfail := List.find?_eq_none.mp hfind id hid
        simp only [Bool.and_eq_true, Bool.not_eq_true', not_and] at hfail
        have hne' : (decide (id = "")) = false := by simp [hne]
        have h2 := hfail hne'
        have h3 : List.contains order id = true := by
          cases hcontains : List.contains order id
          · exact absurd hcontains h2
          · rfl
        have h4 : id ∈ order := by simpa using h3
        exact hnot h4
      · exact ⟨row', hmem, id, hid, hne, hnot⟩

lemma firstDangling_none {rows : List (List String)} {order : List String}
    (h : firstDangling rows order = none) :
    ∀ row ∈ rows, ∀ c ∈ row, c ≠ "" → c ∈ order := by
  induction rows with
  | nil => intro row hrow; simp at hrow
  | cons row rest ih =>
    rw [firstDangling] at h
    cases hfind : row.find? (fun c => !(c = "") && !(order.contains c)) with
    | some c => rw [hfind] at h; exact absurd h (by simp)
    | none =>
      rw [hfind] at h
      intro row' hrow' c hc hne
      rcases List.mem_cons.mp hrow' with heq | hmem
      · subst heq
        have hfail := List.find?_eq_none.mp hfind c hc
        simp only [Bool.and_eq_true, Bool.not_eq_true', not_and] at hfail
        have hne' : (decide (c = "")) = false := by simp [hne]
        have h2 := hfail hne'
        have h3 : List.contains order c = true := by
          cases hcontains : List.contains order c
          · exact absurd hcontains h2
          · rfl
        simpa using h3
      · exact ih h row' hmem c hc hne

/-! ### Claim C9 -/

/-- C9: a declared layout referencing a block ID absent from the language's
content-block order fails with a descriptive error whose text carries both
the language and a dangling ID (spec-modelled resolver plus the in-source
call-site wrapping), and whenever resolution succeeds, every non-empty cell
of the produced grid is an ID of the order sequence — nothing is silently
dropped or substituted. -/
theorem C9_layout_dangling (workID language : String)
    (rows : List (List String)) (order : List String) :
    ((∃ row ∈ rows, ∃ id ∈ row, id ≠ "" ∧ id ∉ order) →
      ∃ e id, resolveLayoutAt workID language (some rows) order =
          Except.error e ∧
        id ≠ "" ∧ id ∉ order ∧ (∃ row ∈ rows, id ∈ row) ∧
        (∃ p s, e = p ++ language ++ s) ∧ (∃ p s, e = p ++ id ++ s)) ∧
    (∀ declaredLayout grid,
      ResolveLayout declaredLayout language order = Except.ok grid →
      ∀ row ∈ grid, ∀ c ∈ row, c ≠ "" → c ∈ order) := by
  constructor
  · intro h
    have hsome := firstDangling_isSome h
    cases hfd : firstDangling rows order with
    | none => rw [hfd] at hsome; simp at hsome
    | some id =>
      obtain ⟨hne, hnot, hrow⟩ := firstDangling_spec hfd
      refine ⟨"while resolving " ++ language ++ " layout of " ++ workID ++
        ": " ++ layoutErrorMessage language id, id, ?_, hne, hnot, hrow, ?_, ?_⟩
      · unfold resolveLayoutAt ResolveLayout
        dsimp only
        rw [hfd]
      · exact ⟨"while resolving ",
          " layout of " ++ workID ++ ": " ++ layoutErrorMessage language id,
          by simp [string_append_assoc]⟩
      · refine ⟨"while resolving " ++ language ++ " layout of " ++ workID ++
          ": layout references block ",
          ", which does not exist in language " ++ language, ?_⟩
        unfold layoutErrorMessage
        simp only [string_append_assoc]
        rfl
  · intro declaredLayout grid hok row hrow c hc hne
    unfold ResolveLayout at hok
    cases declaredLayout with
    | none =>
      dsimp only at hok
      have hgrid : (order.map fun id => [id]) = grid := by
        injection hok
      rw [← hgrid] at hrow
      rcases List.mem_map.mp hrow with ⟨id, hid, heq⟩
      rw [← heq] at hc
      rcases List.mem_singleton.mp hc with rfl
      exact hid
    | some rows' =>
      dsimp only at hok
      cases hfd : firstDangling rows' order with
      | some id => rw [hfd] at hok; exact absurd hok (by simp)
      | none =>
        rw [hfd] at hok
        have hgrid : rows' = grid := by
          have := hok
          injection this
        subst hgrid
        exact firstDangling_none hfd row hrow c hc hne

/-- C9 witness: the theorem applied to a declared layout naming the unknown
block `abc` against an empty order sequence. -/
theorem C9_layout_dangling_witness :
    ∃ e id, resolveLayoutAt "mywork" "en" (some [["abc"]]) [] =
        Except.error e ∧
      id ≠ "" ∧ id ∉ ([] : List String) ∧ (∃ row ∈ [["abc"]], id ∈ row) ∧
      (∃ p s, e = p ++ "en" ++ s) ∧ (∃ p s, e = p ++ id ++ s) :=
  (C9_layout_dangling "mywork" "en" [["abc"]] []).1 (by decide)

/-! ## The build orchestrator (build.go `PrepareBuild` / `BuildSome`)

The filesystem is embedded as explicit state (`BuildFS`): the build-lock
sentinel beside the fixed output path, and the output database file.  The
output file's content is kept structured (`Works`); JSON (de)serialization is
excluded by the specification, so the outcome of unmarshalling a previous
database file is a `BuildEnv` parameter, as are the work-directory listing,
the include-pattern matcher (`filepath.Match` can fail on a malformed
pattern) and the per-work `RunContext.Build` — which performs all the file
reading, parsing and media analysis, and whose Go error convention returns
the zero `AnalyzedWork` alongside the error on every failing path. -/

/-- Modelled from the spec: `ColorPalette` ("color palette", spec section 3)
is not defined under src/. -/
structure ColorPalette where
  Primary : String
  Secondary : String
  Tertiary : String
deriving DecidableEq

/-- `WorkMetadata` (ui.go).  `AdditionalMetadata` is an open YAML bag
(`map[string]interface{}`); its values are embedded as strings, which the
claims never inspect. -/
structure WorkMetadata where
  Aliases : List String
  Finished : String
  Started : String
  MadeWith : List String
  Tags : List String
  Thumbnail : String
  TitleStyle : String
  Colors : ColorPalette
  PageBackground : String
  WIP : Bool
  Private : Bool
  AdditionalMetadata : List (String × String)
deriving DecidableEq

/-- `Link` (ui.go). -/
structure Link where
  ID : String
  Anchor : String
  Text : String
  Title : String
  URL : String
deriving DecidableEq

/-- `ContentBlock` (ui.go): struct-with-discriminant over the three block
kinds.  The Go field `Type` is named `BlockType` here (`Type` is reserved in
Lean). -/
structure ContentBlock where
  BlockType : String
  Media : Media
  Paragraph : Paragraph
  Link : Link
deriving DecidableEq

/-- `LocalizedWorkContent` (ui.go). -/
structure LocalizedWorkContent where
  Layout : List (List String)
  Blocks : List ContentBlock
  Title : String
  Footnotes : List (String × String)
deriving DecidableEq

/-- `AnalyzedWork` (ui.go). -/
structure AnalyzedWork where
  ID : String
  Metadata : WorkMetadata
  Localized : List (String × LocalizedWorkContent)
deriving DecidableEq

/-- The Go zero value `AnalyzedWork{}` — what `RunContext.Build` returns
alongside every error. -/
def zeroAnalyzedWork : AnalyzedWork :=
  { ID := "",
    Metadata :=
      { Aliases := [], Finished := "", Started := "", MadeWith := [],
        Tags := [], Thumbnail := "", TitleStyle := "",
        Colors := { Primary := "", Secondary := "", Tertiary := "" },
        PageBackground := "", WIP := false, Private := false,
        AdditionalMetadata := [] },
    Localized := [] }

/-- The merged output map `works` (`map[string]AnalyzedWork`). -/
abbrev Works : Type := List (String × AnalyzedWork)

/-- The filesystem state shared between build processes: the lock sentinel
(`.ortfomk-build-lock` beside the output file) and the output database
file (`none` when missing). -/
structure BuildFS where
  lockExists : Bool
  outputFile : Option Works
deriving DecidableEq

/-- The environment of one `BuildSome` invocation. -/
structure BuildEnv where
  /-- Whether `os.MkdirAll(config.Media.At, …)` succeeds. -/
  mkdirMediaOk : Bool
  /-- The outcome of JSON-unmarshalling the previous database file
  (serialization is excluded by the specification): `none` means the file
  did not parse, in which case the code logs and uses the empty set. -/
  decodeDB : Works → Option (List AnalyzedWork)
  /-- `ComputeProgressTotal`: the candidate work directories, or a
  directory-listing error. -/
  readDir : Except String (List String)
  /-- `filepath.Match include workID`. -/
  matchPattern : String → String → Except String Bool
  /-- `RunContext.Build`: the per-work build outcome, with the Go error
  convention — the zero `AnalyzedWork` accompanies every error. -/
  build : String → AnalyzedWork × Option String

/-- `AcquireBuildLock` (build.go): create the sentinel, or fail if it is
already there. -/
def AcquireBuildLock (fs : BuildFS) : Except String BuildFS :=
  if fs.lockExists = false then Except.ok { fs with lockExists := true }
  else Except.error "file .ortfomk-build-lock exists"

/-- `ReleaseBuildLock` (build.go): remove the sentinel (a removal failure is
only logged). -/
def ReleaseBuildLock (fs : BuildFS) : BuildFS :=
  { fs with lockExists := false }

/-- `PrepareBuild` (build.go): load the previous database (missing or
unparsable file degrades to the empty previous set), create the media output
directory, then acquire the build lock.  Returns the previous database on
success. -/
def PrepareBuild (env : BuildEnv) (fs : BuildFS) :
    Except String (List AnalyzedWork) × BuildFS :=
  let previous : List AnalyzedWork :=
    match fs.outputFile with
    | none => []
    | some works => (env.decodeDB works).getD []
  if env.mkdirMediaOk = false then
    (Except.error "while creating the media output directory", fs)
  else
    match AcquireBuildLock fs with
    | Except.error e =>
      (Except.error
        ("another ortfo build is in progress (could not acquire build lock): "
          ++ e), fs)
    | Except.ok fs' => (Except.ok previous, fs')

/-- `FindWork` is not under src/; modelled from the spec ("items excluded by
the pattern but present in the previous database are carried over
unchanged"): find the previously built work with this ID, returning the Go
zero value and `false` when absent. -/
def FindWork (previous : List AnalyzedWork) (workID : String) :
    Bool × AnalyzedWork :=
  match previous.find? (fun w => w.ID = workID) with
  | some w => (true, w)
  | none => (false, zeroAnalyzedWork)

/-- The body of the `BuildSome` loop over the candidate work directories,
producing the merged map and the error log.  Faithfully to the source, a
failing per-work build is logged — and its (zero) result is still stored in
the map, since there is no `continue` after the log call:

```go
if included {
    newWork, err := ctx.Build(databaseDirectory, outputFilename, workID)
    if err != nil {
        ctx.LogError("while building %s: %s", workID, err)
    }
    works[workID] = newWork
} else if presentBefore {
    works[workID] = oldWork
} else { ... }
```
-/
def buildLoop (env : BuildEnv) (includePat : String)
    (previous : List AnalyzedWork) :
    List (String × AnalyzedWork) → List String → List String →
      Except String (List (String × AnalyzedWork) × List String)
  | works, log, [] => Except.ok (works, log)
  | works, log, workID :: rest =>
    let found := FindWork previous workID
    let includedResult : Except String Bool :=
      if includePat = "*" then Except.ok true
      else env.matchPattern includePat workID
    match includedResult with
    | Except.error e =>
      Except.error ("while testing include-works pattern " ++ includePat ++
        ": " ++ e)
    | Except.ok included =>
      if included then
        let buildResult := env.build workID
        let log' :=
          match buildResult.2 with
          | some e => log ++ ["while building " ++ workID ++ ": " ++ e]
          | none => log
        buildLoop env includePat previous
          (aset works workID buildResult.1) log' rest
      else if found.1 then
        buildLoop env includePat previous
          (aset works workID found.2) log rest
      else
        buildLoop env includePat previous works
          (log ++ ["Skipped building of work " ++ workID]) rest

/-- `WriteDatabase` (build.go): `-` as the destination streams to standard
output instead of writing the file. -/
def WriteDatabase (works : List (String × AnalyzedWork))
    (outputFilename : String) (fs : BuildFS) : BuildFS :=
  if outputFilename = "-" then fs else { fs with outputFile := some works }

/-- `BuildSome` (build.go).  `defer ctx.ReleaseBuildLock(outputFilename)` is
registered immediately after a successful `PrepareBuild`, so every
subsequent exit path — the directory-listing error, the pattern error and
the normal return — releases the lock; the embedding applies
`ReleaseBuildLock` on each of those paths.  Returns the run result, the
final filesystem state, and the run's error log. -/
def BuildSome (includePat : String) (outputFilename : String)
    (env : BuildEnv) (fs : BuildFS) :
    Except String Unit × BuildFS × List String :=
  match PrepareBuild env fs with
  | (Except.error e, fs1) => (Except.error e, fs1, [])
  | (Except.ok previous, fs1) =>
    match env.readDir with
    | Except.error e =>
      (Except.error ("while computing total number of works to build: " ++ e),
        ReleaseBuildLock fs1, [])
    | Except.ok workDirectories =>
      match buildLoop env includePat previous [] [] workDirectories with
      | Except.error e => (Except.error e, ReleaseBuildLock fs1, [])
      | Except.ok (works, log) =>
        (Except.ok (),
          ReleaseBuildLock (WriteDatabase works outputFilename fs1), log)

/-! ### Claim C6 -/

/-- C6: if the lock sentinel already exists, `BuildSome` fails without
touching the output database — and, provided the media directory creation is
not itself failing, the error is the build-in-progress condition; if the lock
did not exist (so the run either acquired it or failed before acquiring),
the lock does not exist when the invocation ends, whatever the directory
listing, the pattern matching and the per-work builds did — the
scoped-release runs on every exit path after acquisition. -/
theorem C6_build_lock (includePat outputFilename : String) (env : BuildEnv)
    (fs : BuildFS) :
    (fs.lockExists = true →
      (∃ e, (BuildSome includePat outputFilename env fs).1 = Except.error e ∧
        (env.mkdirMediaOk = true →
          e = "another ortfo build is in progress (could not acquire build lock): file .ortfomk-build-lock exists")) ∧
      (BuildSome includePat outputFilename env fs).2.1.outputFile =
        fs.outputFile) ∧
    (fs.lockExists = false →
      (BuildSome includePat outputFilename env fs).2.1.lockExists = false) := by
  constructor
  · intro hlock
    unfold BuildSome PrepareBuild AcquireBuildLock
    rw [hlock]
    by_cases hmk : env.mkdirMediaOk = false
    · rw [if_pos hmk]
      refine ⟨⟨"while creating the media output directory", rfl, ?_⟩, rfl⟩
      intro hmk2
      rw [hmk2] at hmk
      exact absurd hmk (by simp)
    · rw [if_neg hmk]
      rw [if_neg (show ¬(true = false) by simp)]
      exact ⟨⟨_, rfl, fun _ => rfl⟩, rfl⟩
  · intro hlock
    unfold BuildSome PrepareBuild AcquireBuildLock ReleaseBuildLock
    rw [hlock]
    by_cases hmk : env.mkdirMediaOk = false
    · rw [if_pos hmk]
      exact hlock
    · rw [if_neg hmk]
      rw [if_pos rfl]
      dsimp only
      cases env.readDir with
      | error e => rfl
      | ok dirs =>
        dsimp only
        cases buildLoop env includePat
          (match fs.outputFile with
           | none => []
           | some works => (env.decodeDB works).getD []) [] [] dirs with
        | error e => rfl
        | ok p => rfl

/-- A concrete environment whose single work directory `mywork` fails to
build. -/
def buildEnvW : BuildEnv :=
  { mkdirMediaOk := true,
    decodeDB := fun _ => none,
    readDir := Except.ok ["mywork"],
    matchPattern := fun _ _ => Except.ok true,
    build := fun _ => (zeroAnalyzedWork, some "boom") }

/-- C6 witness: the theorem applied with the lock present (rejection, output
untouched) and absent (lock gone at the end of the run). -/
theorem C6_build_lock_witness :
    ((∃ e, (BuildSome "*" "db.json" buildEnvW
        { lockExists := true, outputFile := none }).1 = Except.error e ∧
        (buildEnvW.mkdirMediaOk = true →
          e = "another ortfo build is in progress (could not acquire build lock): file .ortfomk-build-lock exists")) ∧
      (BuildSome "*" "db.json" buildEnvW
        { lockExists := true, outputFile := none }).2.1.outputFile =
        ({ lockExists := true, outputFile := none } : BuildFS).outputFile) ∧
    (BuildSome "*" "db.json" buildEnvW
      { lockExists := false, outputFile := none }).2.1.lockExists = false :=
  ⟨(C6_build_lock "*" "db.json" buildEnvW
      { lockExists := true, outputFile := none }).1 rfl,
    (C6_build_lock "*" "db.json" buildEnvW
      { lockExists := false, outputFile := none }).2 rfl⟩

/-! ### Claim C1 -/

/-- C1: evaluating the orchestrator at the failing input.  With one included
work `mywork` whose build fails with `boom`, the run logs the error and
continues to a successful write — but the output map DOES contain an entry
under `mywork` (the zero `AnalyzedWork`), because `works[workID] = newWork`
runs even when the build errored; the claim's required omission does not
happen. -/
theorem C1_code_bug :
    BuildSome "*" "db.json" buildEnvW
        { lockExists := false, outputFile := none } =
      (Except.ok (),
        { lockExists := false,
          outputFile := some [("mywork", zeroAnalyzedWork)] },
        ["while building mywork: boom"]) ∧
    alookup [("mywork", zeroAnalyzedWork)] "mywork" = some zeroAnalyzedWork ∧
    some zeroAnalyzedWork ≠ (none : Option AnalyzedWork) :=
  ⟨rfl, rfl, by simp⟩

end Ortfodb
